import Mathlib

/-!
# pkg/netlink/nexthop.go

A shallow embedding of the next-hop helper of submariner: the identifier
allocator `GetNextHopId`, the command runner `RunCommand`, and the four
operations that build an `ip` command line and run it.

* Go's `int` is a signed machine word.  The counter of `GetNextHopId` is the
  only place where arithmetic is done on one, so it is the only place where
  the wrap-around of the word is modelled (`wrapInt`).  Everywhere else an
  `int` is only rendered in decimal, and is modelled as an `Int`.
* `exec.Command(...).CombinedOutput()` is the outside world.  It is a
  parameter of the model: a function from the state of the operating system
  and the argument vector to the captured output, the error (if any) and the
  next state of the operating system.
* The model keeps a record of every argument vector handed to the executor
  (`World.launched`) and of every line given to `klog` (`World.klog`).
* `strconv.Itoa`, `strings.Join` and the `%q` verb of `fmt` belong to the Go
  standard library; they are modelled by their documented behaviour.
-/

namespace Netlink

/-! ## Definitions -/

/-- Decimal rendering of an integer, as `strconv.Itoa` does it: a minus sign
for a negative number, then the decimal digits without leading zeros. -/
def Itoa (i : Int) : String :=
  if i < 0 then "-" ++ Nat.repr i.natAbs else Nat.repr i.natAbs

/-- Joins the elements with the separator between them: `strings.Join`. -/
def Join (elems : List String) (sep : String) : String :=
  sep.intercalate elems

/-- Digit of `"0123456789abcdef"` selected by the low four bits. -/
def lowerhex (n : Nat) : Char :=
  Nat.digitChar (n % 16)

/-- Go's `strconv.IsPrint`.  The Latin-1 range is decided by the fast path of
the function; for the other code points the function consults the Unicode
tables of the library, which are the parameter `table`. -/
def IsPrint (table : Char → Bool) (r : Char) : Bool :=
  if r.toNat ≤ 0xFF then
    if 0x20 ≤ r.toNat ∧ r.toNat ≤ 0x7E then true
    else if 0xA1 ≤ r.toNat ∧ r.toNat ≤ 0xFF then r.toNat != 0xAD
    else false
  else table r

/-- Escaped form of one code point inside a double-quoted Go string literal:
`strconv.appendEscapedRune` with `quote = '"'`, `ASCIIonly = false` and
`graphicOnly = false`, the setting of `%q`. -/
def appendEscapedRune (table : Char → Bool) (r : Char) : List Char :=
  if r = '"' ∨ r = '\\' then ['\\', r]
  else if IsPrint table r then [r]
  else if r = '\x07' then ['\\', 'a']
  else if r = '\x08' then ['\\', 'b']
  else if r = '\x0c' then ['\\', 'f']
  else if r = '\n' then ['\\', 'n']
  else if r = '\r' then ['\\', 'r']
  else if r = '\t' then ['\\', 't']
  else if r = '\x0b' then ['\\', 'v']
  else if r.toNat < 0x20 ∨ r.toNat = 0x7F then
    ['\\', 'x', lowerhex (r.toNat / 16), lowerhex r.toNat]
  else if r.toNat < 0x10000 then
    ['\\', 'u', lowerhex (r.toNat / 4096), lowerhex (r.toNat / 256),
      lowerhex (r.toNat / 16), lowerhex r.toNat]
  else
    ['\\', 'U', lowerhex (r.toNat / 268435456), lowerhex (r.toNat / 16777216),
      lowerhex (r.toNat / 1048576), lowerhex (r.toNat / 65536),
      lowerhex (r.toNat / 4096), lowerhex (r.toNat / 256),
      lowerhex (r.toNat / 16), lowerhex r.toNat]

/-- A double-quoted Go string literal for `s`: `strconv.Quote`, which is what
the verb `%q` prints for a string. -/
def Quote (table : Char → Bool) (s : String) : String :=
  ⟨'"' :: (s.data.flatMap (appendEscapedRune table) ++ ['"'])⟩

/-- What the verb `%s` prints for a slice of strings: the elements separated
by spaces, between square brackets. -/
def fmtSlice (command : List String) : String :=
  "[" ++ Join command " " ++ "]"

/-- Value of a signed machine word of `bits` bits holding the mathematical
integer `x` (two's complement wrap-around, as Go defines `++` on `int`). -/
def wrapInt (bits : Nat) (x : Int) : Int :=
  (x + 2 ^ (bits - 1)) % 2 ^ bits - 2 ^ (bits - 1)

/-- One call of `GetNextHopId` on the package variable `nextNextHopId`:
increments the counter and returns its new value.  The result is the pair of
the returned identifier and the counter after the call.  The mutex makes the
increment and the read one step, so calls are steps taken one after another. -/
def GetNextHopId (bits : Nat) (nextNextHopId : Int) : Int × Int :=
  let nextNextHopId := wrapInt bits (nextNextHopId + 1)
  let nextHopId := nextNextHopId
  (nextHopId, nextNextHopId)

/-- The identifiers returned by `n` successive calls of `GetNextHopId`, the
first call first, and the counter after the last call. -/
def callGetNextHopId (bits : Nat) : Nat → Int → List Int × Int
  | 0, counter => ([], counter)
  | n + 1, counter =>
    let (nextHopId, counter1) := GetNextHopId bits counter
    let (rest, counterN) := callGetNextHopId bits n counter1
    (nextHopId :: rest, counterN)

/-- An `error` value of Go, identified by its message. -/
structure GoError where
  msg : String
  deriving DecidableEq, Repr

/-- What `CombinedOutput` gives back: the captured standard output and
standard error, and the text of the error (`none` for a `nil` error). -/
structure ExecResult where
  output : String
  err : Option String
  deriving DecidableEq, Repr

/-- The environment of the package: the executor of commands over operating
system states of type `σ`, and the Unicode tables of `strconv.IsPrint`. -/
structure Platform (σ : Type) where
  exec : σ → List String → ExecResult × σ
  printTable : Char → Bool

/-- The observable state: the operating system, the argument vectors handed
to the executor so far (oldest first) and the lines logged so far. -/
structure World (σ : Type) where
  os : σ
  launched : List (List String)
  klog : List String

/-- Appends one line to the log. -/
def World.info {σ : Type} (w : World σ) (line : String) : World σ :=
  { w with klog := w.klog ++ [line] }

/-- The message built by `fmt.Errorf("failed to run %q: %s (%s)", ...)`. -/
def failedToRun (table : Char → Bool) (cmd : List String) (err output : String) : String :=
  "failed to run " ++ Quote table (Join cmd " ") ++ ": " ++ err ++ " (" ++ output ++ ")"

/-- Runs `cmd` and returns the combined output, or an error.  The result is
`none` when the call panics, which is what `cmd[0]` does on an empty `cmd`. -/
def RunCommand {σ : Type} (p : Platform σ) (cmd : List String) (w : World σ) :
    Option ((String × Option GoError) × World σ) :=
  match cmd with
  | [] => none
  | _ :: _ =>
    let res := p.exec w.os cmd
    let w1 : World σ := { w with os := res.2, launched := w.launched ++ [cmd] }
    match res.1.err with
    | some err => some (("", some ⟨failedToRun p.printTable cmd err res.1.output⟩), w1)
    | none => some ((res.1.output, none), w1)

/-- Creates a next hop entry. -/
def CreateNextHop {σ : Type} (p : Platform σ) (nhid : Int) (nextHopAddr nextHopDev : String)
    (w : World σ) : Option (Option GoError × World σ) :=
  match RunCommand p ["ip", "nexthop", "add", "id", Itoa nhid, "via", nextHopAddr,
      "dev", nextHopDev] w with
  | none => none
  | some ((stdout, some err), w1) => some (some err, (w1.info stdout).info err.msg)
  | some ((_, none), w1) => some (none, w1)

/-- The loop of `CreateNextHopGroup` over `nextHops`, from index `i` on, with
`nextHopList` as built so far. -/
def nextHopListLoop : Nat → String → List Int → String
  | _, nextHopList, [] => nextHopList
  | i, nextHopList, nextHop :: rest =>
    let nextHopList := if i > 0 then nextHopList ++ "/" else nextHopList
    nextHopListLoop (i + 1) (nextHopList ++ Itoa nextHop) rest

/-- Creates a next hop group. -/
def CreateNextHopGroup {σ : Type} (p : Platform σ) (nhid : Int) (nextHops : List Int)
    (w : World σ) : Option (Option GoError × World σ) :=
  let nextHopList := nextHopListLoop 0 "" nextHops
  match RunCommand p ["ip", "nexthop", "add", "id", Itoa nhid, "group", nextHopList] w with
  | none => none
  | some ((stdout, some err), w1) => some (some err, (w1.info stdout).info err.msg)
  | some ((_, none), w1) => some (none, w1)

/-- Deletes a route.  `table` is optional (use -1 to ignore). -/
def RouteDelete {σ : Type} (p : Platform σ) (network : String) (table : Int)
    (w : World σ) : Option (Option GoError × World σ) :=
  let command := ["ip", "route", "delete", "to", network]
  let command := if table ≥ 0 then command ++ ["table", Itoa table] else command
  let w := w.info ("RouteDelete: " ++ fmtSlice command)
  match RunCommand p command w with
  | none => none
  | some ((stdout, some err), w1) =>
    some (some err, (w1.info ("Error adding ip route: " ++ stdout)).info
      ("Error adding ip route: " ++ err.msg))
  | some ((_, none), w1) => some (none, w1)

/-- Adds a route pointing to a nexthop or nexthop group.  The following
parameters are optional with ignore values given in parentheses: table (-1),
metric (-1), proto (-1), scope (-1), source (""). -/
def RouteAddNextHop {σ : Type} (p : Platform σ) (network : String)
    (nhID table metric proto scope : Int) (source : String)
    (w : World σ) : Option (Option GoError × World σ) :=
  match RouteDelete p network table w with
  | none => none
  | some (_, w) =>
    let command := ["ip", "route", "add", "to", network, "nhid", Itoa nhID]
    let command := if table ≥ 0 then command ++ ["table", Itoa table] else command
    let command := if metric ≥ 0 then command ++ ["metric", Itoa metric] else command
    let command := if proto ≥ 0 then command ++ ["proto", Itoa proto] else command
    let command := if scope ≥ 0 then command ++ ["scope", Itoa scope] else command
    let command := if source ≠ "" then command ++ ["src", source] else command
    let w := w.info ("RouteAddNextHop: " ++ fmtSlice command)
    match RunCommand p command w with
    | none => none
    | some ((stdout, some err), w1) =>
      some (some err, (w1.info ("Error adding ip route: " ++ stdout)).info
        ("Error adding ip route: " ++ err.msg))
    | some ((_, none), w1) => some (none, w1)

/-- The error that `RunCommand` returns for `cmd` when the operating system
is in state `os`: `none` when the execution succeeds. -/
def Platform.errorOf {σ : Type} (p : Platform σ) (os : σ) (cmd : List String) : Option GoError :=
  (p.exec os cmd).1.err.map (fun e => ⟨failedToRun p.printTable cmd e (p.exec os cmd).1.output⟩)

/-- An optional clause of an `ip route` command for an integer value. -/
def intClause (keyword : String) (value : Int) : List String :=
  if 0 ≤ value then [keyword, Itoa value] else []

/-- The optional `src` clause of an `ip route add` command. -/
def srcClause (source : String) : List String :=
  if source ≠ "" then ["src", source] else []

/-- The argument vector of the deletion, as `RouteDelete` builds it. -/
def deleteCommand (network : String) (table : Int) : List String :=
  ["ip", "route", "delete", "to", network] ++ intClause "table" table

/-- The argument vector of the addition, as `RouteAddNextHop` builds it. -/
def addCommand (network : String) (nhID table metric proto scope : Int) (source : String) :
    List String :=
  ["ip", "route", "add", "to", network, "nhid", Itoa nhID] ++ intClause "table" table
    ++ intClause "metric" metric ++ intClause "proto" proto ++ intClause "scope" scope
    ++ srcClause source

/-- The add command as the sentinel rule words it: a clause is present when
the value differs from its sentinel, -1 for the integers and "" for the
source. -/
def sentinelAddCommand (network : String) (nhID table metric proto scope : Int)
    (source : String) : List String :=
  ["ip", "route", "add", "to", network, "nhid", Itoa nhID]
    ++ (if table ≠ -1 then ["table", Itoa table] else [])
    ++ (if metric ≠ -1 then ["metric", Itoa metric] else [])
    ++ (if proto ≠ -1 then ["proto", Itoa proto] else [])
    ++ (if scope ≠ -1 then ["scope", Itoa scope] else [])
    ++ (if source ≠ "" then ["src", source] else [])

/-- The number written by a string of decimal digits. -/
def digitsValue (cs : List Char) : Nat :=
  cs.foldl (fun a c => 10 * a + (c.toNat - '0'.toNat)) 0

/-- Reads a non-empty string of decimal digits. -/
def parseDigits (cs : List Char) : Option Nat :=
  if cs ≠ [] ∧ cs.all Char.isDigit = true then some (digitsValue cs) else none

/-- Reads a decimal integer: an optional sign followed by a non-empty string
of decimal digits. -/
def parseInt (s : String) : Option Int :=
  match s.data with
  | '-' :: ds => Option.map (fun (n : Nat) => -(n : Int)) (parseDigits ds)
  | '+' :: ds => Option.map (fun (n : Nat) => (n : Int)) (parseDigits ds)
  | ds => Option.map (fun (n : Nat) => (n : Int)) (parseDigits ds)

/-- Splits a string at every `/`. -/
def splitSlash (s : String) : List String :=
  (s.data.splitOn '/').map String.mk

/-- The string `sub` occurs in the string `s`. -/
def Contains (s sub : String) : Prop :=
  sub.data <:+: s.data

instance (s sub : String) : Decidable (Contains s sub) := by
  unfold Contains; infer_instance

/-- A character that `strconv.Quote` copies unchanged. -/
def copiedByQuote (table : Char → Bool) (c : Char) : Prop :=
  c ≠ '"' ∧ c ≠ '\\' ∧ IsPrint table c = true

instance (table : Char → Bool) (c : Char) : Decidable (copiedByQuote table c) := by
  unfold copiedByQuote; infer_instance

/-- A platform on which every command fails with `exit status 1` and prints
nothing. -/
def failingPlatform : Platform Unit where
  exec := fun os _ => (⟨"", some "exit status 1"⟩, os)
  printTable := fun _ => false

/-- The outcome of an operation is the outcome of the one execution of `cmd`
by `RunCommand` in the world `wr`: the operation returns the error that
`RunCommand` returns, which is nil exactly when the execution succeeds, and
`cmd` is handed to the executor once. -/
def PropagatesRun {σ : Type} (p : Platform σ) (cmd : List String) (wr : World σ)
    (outcome : Option (Option GoError × World σ)) : Prop :=
  ∃ out r w2 w1, RunCommand p cmd wr = some ((out, r), w2)
    ∧ outcome = some (r, w1)
    ∧ w1.launched = wr.launched ++ [cmd]
    ∧ w1.os = w2.os
    ∧ (r = none ↔ (p.exec wr.os cmd).1.err = none)

/-! ## Theorems -/

theorem wrapInt_add_left (bits : Nat) (x y : Int) :
    wrapInt bits (wrapInt bits x + y) = wrapInt bits (x + y) := by
  unfold wrapInt
  have h : (x + 2 ^ (bits - 1)) % 2 ^ bits - 2 ^ (bits - 1) + y + 2 ^ (bits - 1)
      = (x + 2 ^ (bits - 1)) % 2 ^ bits + y := by ring
  have h2 : x + 2 ^ (bits - 1) + y = x + y + 2 ^ (bits - 1) := by ring
  rw [h, Int.emod_add_emod, h2]

theorem wrapInt_eq_self (bits : Nat) (x : Int)
    (hlo : -(2 : Int) ^ (bits - 1) ≤ x) (hhi : x < 2 ^ (bits - 1)) (hb : 1 ≤ bits) :
    wrapInt bits x = x := by
  unfold wrapInt
  have hp : (2 : Int) ^ bits = 2 * 2 ^ (bits - 1) := by
    obtain ⟨k, rfl⟩ : ∃ k, bits = k + 1 := ⟨bits - 1, by omega⟩
    simp [pow_succ]; ring
  rw [Int.emod_eq_of_lt (by linarith) (by linarith)]
  ring

/-- The identifiers returned by `n` calls from counter `c` are the wrapped
values of `c + 1`, ..., `c + n`. -/
theorem callGetNextHopId_fst (bits : Nat) (n : Nat) (c : Int) :
    (callGetNextHopId bits n c).1
      = (List.range n).map (fun k => wrapInt bits (c + ((k : Nat) : Int) + 1)) := by
  induction n generalizing c with
  | zero => rfl
  | succ n ih =>
    have hstep : (callGetNextHopId bits (n + 1) c).1
        = wrapInt bits (c + 1) :: (callGetNextHopId bits n (wrapInt bits (c + 1))).1 := rfl
    rw [hstep, ih, List.range_succ_eq_map, List.map_cons, List.map_map]
    congr 1
    · simp
    · apply List.map_congr_left
      intro k _
      simp only [Function.comp_apply]
      rw [add_assoc (wrapInt bits (c + 1)), wrapInt_add_left]
      congr 1
      push_cast
      ring

/-- Below the largest value of the machine word, the identifiers returned by
`n` calls from counter 0 are 1, ..., `n`. -/
theorem callGetNextHopId_small (bits : Nat) (n : Nat) (hn : (n : Int) < 2 ^ (bits - 1)) (hb : 1 ≤ bits) :
    (callGetNextHopId bits n 0).1 = (List.range n).map (fun k => ((k : Nat) : Int) + 1) := by
  rw [callGetNextHopId_fst]
  apply List.map_congr_left
  intro k hk
  have hk1 : k < n := List.mem_range.mp hk
  have h2 : (0 : Int) ≤ 2 ^ (bits - 1) := by positivity
  rw [zero_add]
  apply wrapInt_eq_self _ _ _ _ hb
  · have : (0 : Int) ≤ (k : Int) := Int.ofNat_nonneg k
    linarith
  · have : (k : Int) + 1 ≤ n := by exact_mod_cast hk1
    linarith

/-- C1 (amended): for every width `bits` of the machine word and every N with
1 ≤ N < 2^(bits-1), N successive calls of GetNextHopId from counter 0 return
1, 2, ..., N in that order: no duplicates, exactly the values 1..N, and every
value strictly greater than the ones returned before it. -/
theorem C1_GetNextHopId_sequence (bits N : Nat) (h1 : 1 ≤ N) (hN : N < 2 ^ (bits - 1)) :
    (callGetNextHopId bits N 0).1 = (List.range N).map (fun k => ((k : Nat) : Int) + 1)
    ∧ (callGetNextHopId bits N 0).1.Nodup
    ∧ (∀ v : Int, v ∈ (callGetNextHopId bits N 0).1 ↔ 1 ≤ v ∧ v ≤ N)
    ∧ (callGetNextHopId bits N 0).1.Pairwise (fun a b => a < b) := by
  have hb : 1 ≤ bits := by
    rcases Nat.eq_zero_or_pos bits with h0 | h0
    · subst h0; simp at hN; omega
    · exact h0
  have hN2 : (N : Int) < 2 ^ (bits - 1) := by exact_mod_cast hN
  have hlist := callGetNextHopId_small bits N hN2 hb
  have hpw : ((List.range N).map (fun k => ((k : Nat) : Int) + 1)).Pairwise (fun a b => a < b) := by
    rw [List.pairwise_map]
    refine (List.pairwise_lt_range N).imp ?_
    intro a b hab
    have : (a : Int) < b := by exact_mod_cast hab
    linarith
  rw [hlist]
  refine ⟨rfl, ?_, ?_, hpw⟩
  · exact hpw.imp (fun h => ne_of_lt h)
  · intro v
    simp only [List.mem_map, List.mem_range]
    constructor
    · rintro ⟨k, hk, rfl⟩
      have : (k : Int) + 1 ≤ N := by exact_mod_cast hk
      have : (0 : Int) ≤ k := Int.ofNat_nonneg k
      omega
    · rintro ⟨hv1, hv2⟩
      refine ⟨(v - 1).toNat, ?_, ?_⟩
      · omega
      · omega

theorem C1_GetNextHopId_sequence_witness :
    1 ≤ 3 ∧ 3 < 2 ^ (64 - 1)
    ∧ ((callGetNextHopId 64 3 0).1 = (List.range 3).map (fun k => ((k : Nat) : Int) + 1)
      ∧ (callGetNextHopId 64 3 0).1.Nodup
      ∧ (∀ v : Int, v ∈ (callGetNextHopId 64 3 0).1 ↔ 1 ≤ v ∧ v ≤ (3 : Nat))
      ∧ (callGetNextHopId 64 3 0).1.Pairwise (fun a b => a < b)) :=
  ⟨by decide, by decide, C1_GetNextHopId_sequence 64 3 (by decide) (by decide)⟩

/-- C1 fails as stated: with a 64-bit `int`, call number 2^63 from counter 0
returns -2^63, so 2^63 successive calls do not return 1, ..., 2^63. -/
theorem C1_GetNextHopId_wraps :
    (callGetNextHopId 64 (2 ^ 63) 0).1[2 ^ 63 - 1]? = some (-9223372036854775808)
    ∧ (callGetNextHopId 64 (2 ^ 63) 0).1
        ≠ (List.range (2 ^ 63)).map (fun k => ((k : Nat) : Int) + 1) := by
  have hlast : (callGetNextHopId 64 (2 ^ 63) 0).1[2 ^ 63 - 1]? = some (-9223372036854775808) := by
    rw [callGetNextHopId_fst, List.getElem?_map, List.getElem?_range (by norm_num)]
    simp only [Option.map_some']
    congr 1
  refine ⟨hlast, ?_⟩
  intro h
  rw [h, List.getElem?_map, List.getElem?_range (by norm_num)] at hlast
  simp only [Option.map_some', Option.some.injEq] at hlast
  norm_num at hlast

theorem RunCommand_of_ne_nil {σ : Type} (p : Platform σ) (cmd : List String) (w : World σ)
    (h : cmd ≠ []) :
    ∃ stdout w1, RunCommand p cmd w = some ((stdout, p.errorOf w.os cmd), w1)
      ∧ w1.os = (p.exec w.os cmd).2 ∧ w1.launched = w.launched ++ [cmd] ∧ w1.klog = w.klog := by
  cases cmd with
  | nil => exact absurd rfl h
  | cons c cs =>
    simp only [RunCommand, Platform.errorOf]
    cases hres : (p.exec w.os (c :: cs)).1.err with
    | none => exact ⟨_, _, rfl, rfl, rfl, rfl⟩
    | some e => exact ⟨_, _, rfl, rfl, rfl, rfl⟩

theorem CreateNextHop_run {σ : Type} (p : Platform σ) (nhid : Int) (nextHopAddr nextHopDev : String)
    (w : World σ) :
    ∃ w1, CreateNextHop p nhid nextHopAddr nextHopDev w
        = some (p.errorOf w.os ["ip", "nexthop", "add", "id", Itoa nhid, "via", nextHopAddr,
            "dev", nextHopDev], w1)
      ∧ w1.os = (p.exec w.os ["ip", "nexthop", "add", "id", Itoa nhid, "via", nextHopAddr,
            "dev", nextHopDev]).2
      ∧ w1.launched = w.launched ++ [["ip", "nexthop", "add", "id", Itoa nhid, "via",
            nextHopAddr, "dev", nextHopDev]] := by
  obtain ⟨stdout, w1, hrun, hos, hl, _⟩ := RunCommand_of_ne_nil p
    ["ip", "nexthop", "add", "id", Itoa nhid, "via", nextHopAddr, "dev", nextHopDev] w (by simp)
  unfold CreateNextHop
  rw [hrun]
  cases herr : p.errorOf w.os ["ip", "nexthop", "add", "id", Itoa nhid, "via", nextHopAddr,
      "dev", nextHopDev] with
  | none => exact ⟨w1, rfl, hos, hl⟩
  | some e => exact ⟨_, rfl, hos, hl⟩

theorem CreateNextHopGroup_run {σ : Type} (p : Platform σ) (nhid : Int) (nextHops : List Int)
    (w : World σ) :
    ∃ w1, CreateNextHopGroup p nhid nextHops w
        = some (p.errorOf w.os ["ip", "nexthop", "add", "id", Itoa nhid, "group",
            nextHopListLoop 0 "" nextHops], w1)
      ∧ w1.os = (p.exec w.os ["ip", "nexthop", "add", "id", Itoa nhid, "group",
            nextHopListLoop 0 "" nextHops]).2
      ∧ w1.launched = w.launched ++ [["ip", "nexthop", "add", "id", Itoa nhid, "group",
            nextHopListLoop 0 "" nextHops]] := by
  obtain ⟨stdout, w1, hrun, hos, hl, _⟩ := RunCommand_of_ne_nil p
    ["ip", "nexthop", "add", "id", Itoa nhid, "group", nextHopListLoop 0 "" nextHops] w (by simp)
  unfold CreateNextHopGroup
  simp only
  rw [hrun]
  cases herr : p.errorOf w.os ["ip", "nexthop", "add", "id", Itoa nhid, "group",
      nextHopListLoop 0 "" nextHops] with
  | none => exact ⟨w1, rfl, hos, hl⟩
  | some e => exact ⟨_, rfl, hos, hl⟩

theorem RouteDelete_run {σ : Type} (p : Platform σ) (network : String) (table : Int)
    (w : World σ) :
    ∃ w1, RouteDelete p network table w
        = some (p.errorOf w.os (["ip", "route", "delete", "to", network]
            ++ intClause "table" table), w1)
      ∧ w1.os = (p.exec w.os (["ip", "route", "delete", "to", network]
            ++ intClause "table" table)).2
      ∧ w1.launched = w.launched ++ [["ip", "route", "delete", "to", network]
            ++ intClause "table" table] := by
  have hcmd : (if table ≥ 0 then ["ip", "route", "delete", "to", network] ++ ["table", Itoa table]
      else ["ip", "route", "delete", "to", network])
      = ["ip", "route", "delete", "to", network] ++ intClause "table" table := by
    unfold intClause; split_ifs <;> simp
  obtain ⟨stdout, w1, hrun, hos, hl, _⟩ := RunCommand_of_ne_nil p
    (["ip", "route", "delete", "to", network] ++ intClause "table" table)
    (w.info ("RouteDelete: " ++ fmtSlice (["ip", "route", "delete", "to", network]
      ++ intClause "table" table))) (by simp)
  have hrun2 : RunCommand p (["ip", "route", "delete", "to", network] ++ intClause "table" table)
      (w.info ("RouteDelete: " ++ fmtSlice (["ip", "route", "delete", "to", network]
        ++ intClause "table" table)))
      = some ((stdout, p.errorOf w.os (["ip", "route", "delete", "to", network]
        ++ intClause "table" table)), w1) := hrun
  unfold RouteDelete
  simp only [hcmd]
  rw [hrun2]
  cases p.errorOf w.os (["ip", "route", "delete", "to", network] ++ intClause "table" table) with
  | none => exact ⟨w1, rfl, hos, hl⟩
  | some e => exact ⟨_, rfl, hos, hl⟩

theorem append_intClause (command : List String) (keyword : String) (value : Int) :
    (if value ≥ 0 then command ++ [keyword, Itoa value] else command)
      = command ++ intClause keyword value := by
  unfold intClause; split_ifs <;> simp

theorem append_srcClause (command : List String) (source : String) :
    (if source ≠ "" then command ++ ["src", source] else command)
      = command ++ srcClause source := by
  unfold srcClause; split_ifs <;> simp

theorem RouteAddNextHop_run {σ : Type} (p : Platform σ) (network : String)
    (nhID table metric proto scope : Int) (source : String) (w : World σ) :
    ∃ w1, RouteAddNextHop p network nhID table metric proto scope source w
        = some (p.errorOf (p.exec w.os (deleteCommand network table)).2
            (addCommand network nhID table metric proto scope source), w1)
      ∧ w1.os = (p.exec (p.exec w.os (deleteCommand network table)).2
            (addCommand network nhID table metric proto scope source)).2
      ∧ w1.launched = w.launched ++ [deleteCommand network table,
            addCommand network nhID table metric proto scope source] := by
  obtain ⟨wd, hdel, hdos, hdl⟩ := RouteDelete_run p network table w
  obtain ⟨stdout, w1, hrun, hos, hl, _⟩ := RunCommand_of_ne_nil p
    (addCommand network nhID table metric proto scope source)
    (wd.info ("RouteAddNextHop: "
      ++ fmtSlice (addCommand network nhID table metric proto scope source)))
    (by simp [addCommand])
  have hwos : (wd.info ("RouteAddNextHop: "
      ++ fmtSlice (addCommand network nhID table metric proto scope source))).os
      = (p.exec w.os (deleteCommand network table)).2 := hdos
  have hwl : (wd.info ("RouteAddNextHop: "
      ++ fmtSlice (addCommand network nhID table metric proto scope source))).launched
      = w.launched ++ [deleteCommand network table] := hdl
  rw [hwos] at hrun hos
  rw [hwl] at hl
  have hl2 : w1.launched = w.launched ++ [deleteCommand network table,
      addCommand network nhID table metric proto scope source] := by
    rw [hl]; simp
  unfold RouteAddNextHop
  rw [hdel]
  simp only [append_intClause, append_srcClause]
  have hadd : ["ip", "route", "add", "to", network, "nhid", Itoa nhID] ++ intClause "table" table
      ++ intClause "metric" metric ++ intClause "proto" proto ++ intClause "scope" scope
      ++ srcClause source = addCommand network nhID table metric proto scope source := rfl
  rw [hadd, hrun]
  cases p.errorOf (p.exec w.os (deleteCommand network table)).2
      (addCommand network nhID table metric proto scope source) with
  | none => exact ⟨w1, rfl, hos, hl2⟩
  | some e => exact ⟨_, rfl, hos, hl2⟩

example : (splitSlash "5/-7/9").map parseInt = [some 5, some (-7), some 9] := by decide
example : (splitSlash "").map parseInt = [none] := by decide

theorem digitChar_isDigit (k : Nat) (hk : k < 10) :
    (Nat.digitChar k).isDigit = true ∧ (Nat.digitChar k).toNat - '0'.toNat = k := by
  interval_cases k <;> exact ⟨by decide, by decide⟩

theorem toDigitsCore_spec (fuel : Nat) : ∀ (n : Nat) (ds : List Char), n < fuel →
    ∃ ds0, Nat.toDigitsCore 10 fuel n ds = ds0 ++ ds ∧ ds0 ≠ []
      ∧ (∀ c ∈ ds0, c.isDigit = true) ∧ digitsValue ds0 = n := by
  induction fuel with
  | zero => intro n ds h; omega
  | succ fuel ih =>
    intro n ds h
    obtain ⟨hd, hv⟩ := digitChar_isDigit (n % 10) (Nat.mod_lt _ (by norm_num))
    simp only [Nat.toDigitsCore]
    split_ifs with h0
    · refine ⟨[Nat.digitChar (n % 10)], rfl, by simp, by simpa using hd, ?_⟩
      simp only [digitsValue, List.foldl_cons, List.foldl_nil, hv]
      omega
    · have hlt : n / 10 < fuel := by omega
      obtain ⟨ds1, heq, _, hdig, hval⟩ := ih (n / 10) (Nat.digitChar (n % 10) :: ds) hlt
      refine ⟨ds1 ++ [Nat.digitChar (n % 10)], by rw [heq]; simp, by simp, ?_, ?_⟩
      · intro c hc
        rcases List.mem_append.mp hc with h1 | h1
        · exact hdig c h1
        · rw [List.mem_singleton.mp h1]; exact hd
      · unfold digitsValue at hval ⊢
        rw [List.foldl_append, hval]
        simp only [List.foldl_cons, List.foldl_nil, hv]
        omega

/-- The decimal digits of a natural number: not empty, all digits, and they
write the number. -/
theorem repr_spec (n : Nat) :
    (Nat.repr n).data ≠ [] ∧ (∀ c ∈ (Nat.repr n).data, c.isDigit = true)
      ∧ digitsValue (Nat.repr n).data = n := by
  obtain ⟨ds0, heq, hne, hdig, hval⟩ := toDigitsCore_spec (n + 1) n [] (by omega)
  have : (Nat.repr n).data = ds0 := by
    simp [Nat.repr, Nat.toDigits, heq, List.asString]
  rw [this]
  exact ⟨hne, hdig, hval⟩

theorem parseDigits_repr (n : Nat) : parseDigits (Nat.repr n).data = some n := by
  obtain ⟨hne, hdig, hval⟩ := repr_spec n
  unfold parseDigits
  rw [if_pos ⟨hne, List.all_eq_true.mpr hdig⟩, hval]

theorem Itoa_data (i : Int) :
    (Itoa i).data = if i < 0 then '-' :: (Nat.repr i.natAbs).data else (Nat.repr i.natAbs).data := by
  unfold Itoa
  split_ifs <;> simp

/-- Reading the decimal rendering of an integer gives the integer back. -/
theorem parseInt_Itoa (i : Int) : parseInt (Itoa i) = some i := by
  obtain ⟨hne, hdig, _⟩ := repr_spec i.natAbs
  unfold parseInt
  rw [Itoa_data]
  split_ifs with hneg
  · simp only [parseDigits_repr, Option.map_some', Option.some.injEq]
    rw [Int.ofNat_natAbs_of_nonpos (le_of_lt hneg), neg_neg]
  · cases hds : (Nat.repr i.natAbs).data with
    | nil => exact absurd hds hne
    | cons c cs =>
      have hc : c.isDigit = true := hdig c (by rw [hds]; simp)
      have h1 : c ≠ '-' := by rintro rfl; exact absurd hc (by decide)
      have h2 : c ≠ '+' := by rintro rfl; exact absurd hc (by decide)
      have hpd := parseDigits_repr i.natAbs
      rw [hds] at hpd
      split
      · rename_i heq; simp at heq; exact absurd heq.1 h1
      · rename_i heq; simp at heq; exact absurd heq.1 h2
      · simp only [hpd, Option.map_some', Option.some.injEq]
        exact Int.natAbs_of_nonneg (not_lt.mp hneg)

/-- The decimal rendering of an integer is not empty and has no `/`. -/
theorem Itoa_chars (i : Int) : (Itoa i).data ≠ [] ∧ '/' ∉ (Itoa i).data := by
  obtain ⟨hne, hdig, _⟩ := repr_spec i.natAbs
  have hno : '/' ∉ (Nat.repr i.natAbs).data := fun h => absurd (hdig _ h) (by decide)
  rw [Itoa_data]
  split_ifs
  · refine ⟨by simp, ?_⟩
    simp only [List.mem_cons, not_or]
    exact ⟨by decide, hno⟩
  · exact ⟨hne, hno⟩

theorem nextHopListLoop_pos (i : Nat) (hi : i > 0) (acc : String) (nextHops : List Int) :
    nextHopListLoop i acc nextHops = String.intercalate.go acc "/" (nextHops.map Itoa) := by
  induction nextHops generalizing i acc with
  | nil => rfl
  | cons m rest ih =>
    simp only [nextHopListLoop, if_pos hi, List.map_cons, String.intercalate.go]
    exact ih (i + 1) (by omega) _

/-- The loop of `CreateNextHopGroup` joins the decimal renderings with `/`. -/
theorem nextHopListLoop_eq_Join (nextHops : List Int) :
    nextHopListLoop 0 "" nextHops = Join (nextHops.map Itoa) "/" := by
  cases nextHops with
  | nil => rfl
  | cons m rest =>
    simp only [nextHopListLoop, Join, List.map_cons, String.intercalate]
    rw [if_neg (by omega), nextHopListLoop_pos _ (by omega)]
    simp

theorem intercalate_go_data (acc sep : String) (parts : List String) :
    (String.intercalate.go acc sep parts).data
      = acc.data ++ (parts.map (fun a => sep.data ++ a.data)).flatten := by
  induction parts generalizing acc with
  | nil => simp [String.intercalate.go]
  | cons a rest ih =>
    simp only [String.intercalate.go, ih, String.data_append, List.map_cons, List.flatten_cons,
      List.append_assoc]

theorem list_intercalate_cons (sep : List Char) (x : List Char) (xs : List (List Char)) :
    sep.intercalate (x :: xs) = x ++ (xs.map (fun a => sep ++ a)).flatten := by
  induction xs generalizing x with
  | nil => simp [List.intercalate]
  | cons y ys ih =>
    have h := ih y
    simp only [List.intercalate, List.intersperse_cons_cons, List.flatten_cons, List.map_cons,
      List.append_assoc] at h ⊢
    rw [h]

theorem Join_data (sep : String) (parts : List String) :
    (Join parts sep).data = sep.data.intercalate (parts.map String.data) := by
  cases parts with
  | nil => rfl
  | cons a rest =>
    simp only [Join, String.intercalate, intercalate_go_data, List.map_cons,
      list_intercalate_cons, List.map_map]
    rfl

/-- Splitting the group token at `/` gives the decimal renderings back. -/
theorem splitSlash_nextHopList (nextHops : List Int) (h : nextHops ≠ []) :
    splitSlash (nextHopListLoop 0 "" nextHops) = nextHops.map Itoa := by
  unfold splitSlash
  rw [nextHopListLoop_eq_Join, Join_data]
  have hsep : ("/" : String).data = ['/'] := rfl
  rw [hsep, List.splitOn_intercalate]
  · simp [List.map_map]
  · intro l hl
    simp only [List.mem_map] at hl
    obtain ⟨a, ⟨m, _, rfl⟩, rfl⟩ := hl
    exact (Itoa_chars m).2
  · simpa using h

/-- Splitting the group token at `/` and reading every piece as a decimal
integer gives the members back, in their order. -/
theorem parse_nextHopList (nextHops : List Int) (h : nextHops ≠ []) :
    (splitSlash (nextHopListLoop 0 "" nextHops)).map parseInt = nextHops.map some := by
  rw [splitSlash_nextHopList nextHops h, List.map_map]
  apply List.map_congr_left
  intro m _
  exact parseInt_Itoa m

theorem Quote_of_copied (table : Char → Bool) (s : String)
    (h : ∀ c ∈ s.data, copiedByQuote table c) :
    Quote table s = "\"" ++ s ++ "\"" := by
  have hflat : ∀ l : List Char, (∀ c ∈ l, copiedByQuote table c) →
      l.flatMap (appendEscapedRune table) = l := by
    intro l
    induction l with
    | nil => intro _; rfl
    | cons c cs ih =>
      intro hl
      obtain ⟨h1, h2, h3⟩ := hl c (by simp)
      have hc : appendEscapedRune table c = [c] := by
        unfold appendEscapedRune
        rw [if_neg (by simp [h1, h2]), if_pos h3]
      rw [List.flatMap_cons, hc, ih (fun d hd => hl d (by simp [hd]))]
      rfl
  apply String.ext
  simp only [Quote, String.data_append, hflat s.data h]
  rfl

theorem failedToRun_data (table : Char → Bool) (cmd : List String) (err output : String) :
    (failedToRun table cmd err output).data
      = "failed to run ".data ++ (Quote table (Join cmd " ")).data ++ ": ".data ++ err.data
        ++ " (".data ++ output.data ++ ")".data := by
  simp [failedToRun, String.data_append]

theorem failedToRun_contains (table : Char → Bool) (cmd : List String) (err output : String) :
    Contains (failedToRun table cmd err output) (Quote table (Join cmd " "))
    ∧ Contains (failedToRun table cmd err output) err
    ∧ Contains (failedToRun table cmd err output) output := by
  unfold Contains
  rw [failedToRun_data]
  refine ⟨⟨"failed to run ".data, ": ".data ++ err.data ++ " (".data ++ output.data ++ ")".data,
      by simp⟩,
    ⟨"failed to run ".data ++ (Quote table (Join cmd " ")).data ++ ": ".data,
      " (".data ++ output.data ++ ")".data, by simp⟩,
    ⟨"failed to run ".data ++ (Quote table (Join cmd " ")).data ++ ": ".data ++ err.data
      ++ " (".data, ")".data, by simp⟩⟩

theorem failedToRun_contains_command (table : Char → Bool) (cmd : List String)
    (err output : String) (h : ∀ c ∈ (Join cmd " ").data, copiedByQuote table c) :
    Contains (failedToRun table cmd err output) (Join cmd " ") := by
  unfold Contains
  rw [failedToRun_data, Quote_of_copied table _ h]
  exact ⟨"failed to run ".data ++ "\"".data,
    "\"".data ++ ": ".data ++ err.data ++ " (".data ++ output.data ++ ")".data,
    by simp [String.data_append]⟩

/-- C2 (amended): when the execution of a non-empty cmd fails with error e and
captured output o, RunCommand returns (and launches cmd once) the error whose
message is `failed to run `, the Go-quoted (%q) form of cmd joined with single
spaces, `: `, e, ` (`, o, `)`.  The message contains the quoted command text,
e and o; it contains the joined command text itself whenever quoting copies
every character of it (no double quote, no backslash, only printable
characters). -/
theorem C2_RunCommand_error {σ : Type} (p : Platform σ) (cmd : List String) (w : World σ)
    (e o : String) (hne : cmd ≠ []) (hfail : (p.exec w.os cmd).1 = ⟨o, some e⟩) :
    ∃ w1, RunCommand p cmd w = some (("", some ⟨failedToRun p.printTable cmd e o⟩), w1)
      ∧ w1.launched = w.launched ++ [cmd]
      ∧ failedToRun p.printTable cmd e o
          = "failed to run " ++ Quote p.printTable (Join cmd " ") ++ ": " ++ e ++ " (" ++ o ++ ")"
      ∧ Contains (failedToRun p.printTable cmd e o) (Quote p.printTable (Join cmd " "))
      ∧ Contains (failedToRun p.printTable cmd e o) e
      ∧ Contains (failedToRun p.printTable cmd e o) o
      ∧ ((∀ c ∈ (Join cmd " ").data, copiedByQuote p.printTable c) →
          Contains (failedToRun p.printTable cmd e o) (Join cmd " ")) := by
  obtain ⟨h1, h2, h3⟩ := failedToRun_contains p.printTable cmd e o
  cases cmd with
  | nil => exact absurd rfl hne
  | cons c cs =>
    refine ⟨{ w with os := (p.exec w.os (c :: cs)).2, launched := w.launched ++ [c :: cs] },
      ?_, rfl, rfl, h1, h2, h3, failedToRun_contains_command _ _ _ _⟩
    simp only [RunCommand, hfail]

theorem C2_RunCommand_error_witness :
    ["ip", "route", "delete", "to", "10.0.0.0/24"] ≠ []
    ∧ (failingPlatform.exec () ["ip", "route", "delete", "to", "10.0.0.0/24"]).1
        = ⟨"", some "exit status 1"⟩
    ∧ ∃ w1, RunCommand failingPlatform ["ip", "route", "delete", "to", "10.0.0.0/24"] ⟨(), [], []⟩
        = some (("", some ⟨failedToRun failingPlatform.printTable
            ["ip", "route", "delete", "to", "10.0.0.0/24"] "exit status 1" ""⟩), w1)
      ∧ w1.launched = [] ++ [["ip", "route", "delete", "to", "10.0.0.0/24"]]
      ∧ Contains (failedToRun failingPlatform.printTable
            ["ip", "route", "delete", "to", "10.0.0.0/24"] "exit status 1" "")
          (Join ["ip", "route", "delete", "to", "10.0.0.0/24"] " ") :=
  ⟨by decide, rfl,
    (C2_RunCommand_error failingPlatform ["ip", "route", "delete", "to", "10.0.0.0/24"]
      ⟨(), [], []⟩ "exit status 1" "" (by decide) rfl).imp
      (fun _ h => ⟨h.1, h.2.1, h.2.2.2.2.2.2 (by decide)⟩)⟩

/-- C2 fails as stated: running `echo "hi"` on a platform where it exits with
status 1 gives the message `failed to run "echo \"hi\"": exit status 1 ()`,
in which the joined command text `echo "hi"` does not occur. -/
theorem C2_quoted_command_text :
    RunCommand failingPlatform ["echo", "\"hi\""] ⟨(), [], []⟩
      = some (("", some ⟨"failed to run \"echo \\\"hi\\\"\": exit status 1 ()"⟩),
          ⟨(), [["echo", "\"hi\""]], []⟩)
    ∧ Join ["echo", "\"hi\""] " " = "echo \"hi\""
    ∧ ¬ Contains "failed to run \"echo \\\"hi\\\"\": exit status 1 ()"
          (Join ["echo", "\"hi\""] " ") := by
  refine ⟨?_, by decide, by decide⟩
  have h : failedToRun failingPlatform.printTable ["echo", "\"hi\""] "exit status 1" ""
      = "failed to run \"echo \\\"hi\\\"\": exit status 1 ()" := by decide
  simp only [RunCommand, failingPlatform, List.nil_append]
  rw [← h]
  rfl

theorem errorOf_eq_none_iff {σ : Type} (p : Platform σ) (os : σ) (cmd : List String) :
    p.errorOf os cmd = none ↔ (p.exec os cmd).1.err = none := by
  simp [Platform.errorOf]

theorem propagatesRun_of_run {σ : Type} (p : Platform σ) (cmd : List String) (wr w1 : World σ)
    (outcome : Option (Option GoError × World σ)) (hne : cmd ≠ [])
    (hout : outcome = some (p.errorOf wr.os cmd, w1))
    (hos : w1.os = (p.exec wr.os cmd).2) (hl : w1.launched = wr.launched ++ [cmd]) :
    PropagatesRun p cmd wr outcome := by
  obtain ⟨out, w2, hrun, hos2, _, _⟩ := RunCommand_of_ne_nil p cmd wr hne
  exact ⟨out, _, w2, w1, hrun, hout, hl, by rw [hos, hos2], errorOf_eq_none_iff p wr.os cmd⟩

/-- C6: CreateNextHop(n, a, d) returns after running exactly one command, the
nine tokens ip nexthop add id decimal(n) via a dev d, with a and d as they
were given: the executor is called on that argument vector in the current
state of the operating system, its next state is the state afterwards, the
error returned is the one of that run, and nothing else is executed. -/
theorem C6_CreateNextHop_command {σ : Type} (p : Platform σ) (n : Int) (a d : String)
    (w : World σ) :
    ∃ w1 cmd, cmd = ["ip", "nexthop", "add", "id", Itoa n, "via", a, "dev", d]
      ∧ cmd.length = 9
      ∧ parseInt (Itoa n) = some n
      ∧ CreateNextHop p n a d w = some (p.errorOf w.os cmd, w1)
      ∧ w1.os = (p.exec w.os cmd).2
      ∧ w1.launched = w.launched ++ [cmd]
      ∧ PropagatesRun p cmd w (CreateNextHop p n a d w) := by
  obtain ⟨w1, h, hos, hl⟩ := CreateNextHop_run p n a d w
  exact ⟨w1, _, rfl, rfl, parseInt_Itoa n, h, hos, hl,
    propagatesRun_of_run p _ w w1 _ (by simp) h hos hl⟩

/-- C4: RouteDelete(network, -1) runs exactly ip route delete to network, with
no table clause, and for a table number t ≥ 0 RouteDelete(network, t) runs
exactly ip route delete to network table decimal(t); for t = 254 the clause is
`table 254`.  Running means: the executor is called on that argument vector in
the current state of the operating system, its next state is the state
afterwards, the error returned is the one of that run, and nothing else is
executed. -/
theorem C4_RouteDelete_command {σ : Type} (p : Platform σ) (network : String) (t : Int)
    (w : World σ) (ht : 0 ≤ t) :
    (∃ w1 cmd, cmd = ["ip", "route", "delete", "to", network]
      ∧ RouteDelete p network (-1) w = some (p.errorOf w.os cmd, w1)
      ∧ w1.os = (p.exec w.os cmd).2
      ∧ w1.launched = w.launched ++ [cmd])
    ∧ (∃ w1 cmd, cmd = ["ip", "route", "delete", "to", network, "table", Itoa t]
      ∧ RouteDelete p network t w = some (p.errorOf w.os cmd, w1)
      ∧ w1.os = (p.exec w.os cmd).2
      ∧ w1.launched = w.launched ++ [cmd])
    ∧ (∃ w1 cmd, cmd = ["ip", "route", "delete", "to", network, "table", "254"]
      ∧ RouteDelete p network 254 w = some (p.errorOf w.os cmd, w1)
      ∧ w1.os = (p.exec w.os cmd).2
      ∧ w1.launched = w.launched ++ [cmd]) := by
  refine ⟨?_, ?_, ?_⟩
  · obtain ⟨w1, h, hos, hl⟩ := RouteDelete_run p network (-1) w
    exact ⟨w1, _, rfl, h, hos, hl⟩
  · obtain ⟨w1, h, hos, hl⟩ := RouteDelete_run p network t w
    have hcmd : ["ip", "route", "delete", "to", network] ++ intClause "table" t
        = ["ip", "route", "delete", "to", network, "table", Itoa t] := by
      rw [intClause, if_pos ht]; rfl
    rw [hcmd] at h hos hl
    exact ⟨w1, _, rfl, h, hos, hl⟩
  · obtain ⟨w1, h, hos, hl⟩ := RouteDelete_run p network 254 w
    exact ⟨w1, _, rfl, h, hos, hl⟩

/-- C4 at table 100 on a platform where every command fails: the deletion
returns the error of its one run. -/
theorem C4_RouteDelete_command_witness :
    (0 : Int) ≤ 100
    ∧ ((∃ w1 cmd, cmd = ["ip", "route", "delete", "to", "10.0.0.0/24"]
        ∧ RouteDelete failingPlatform "10.0.0.0/24" (-1) ⟨(), [], []⟩
            = some (failingPlatform.errorOf () cmd, w1)
        ∧ w1.os = (failingPlatform.exec () cmd).2
        ∧ w1.launched = [] ++ [cmd])
      ∧ (∃ w1 cmd, cmd = ["ip", "route", "delete", "to", "10.0.0.0/24", "table", Itoa 100]
        ∧ RouteDelete failingPlatform "10.0.0.0/24" 100 ⟨(), [], []⟩
            = some (failingPlatform.errorOf () cmd, w1)
        ∧ w1.os = (failingPlatform.exec () cmd).2
        ∧ w1.launched = [] ++ [cmd])
      ∧ (∃ w1 cmd, cmd = ["ip", "route", "delete", "to", "10.0.0.0/24", "table", "254"]
        ∧ RouteDelete failingPlatform "10.0.0.0/24" 254 ⟨(), [], []⟩
            = some (failingPlatform.errorOf () cmd, w1)
        ∧ w1.os = (failingPlatform.exec () cmd).2
        ∧ w1.launched = [] ++ [cmd])) :=
  ⟨by decide, C4_RouteDelete_command failingPlatform "10.0.0.0/24" 100 ⟨(), [], []⟩ (by decide)⟩

/-- C3 (amended): RouteAddNextHop returns after running two commands, the
deletion and then the add command, which is ip route add to network nhid
decimal(nhID) followed by the clauses for table, metric, proto, scope and src
in that order; an integer clause (keyword, then the decimal value) is appended
exactly when the value is ≥ 0, so -1 and every other negative value omit it,
and the src clause exactly when the source differs from "".  The error
returned is the one of the run of the add command.  With all sentinels the
command is `ip route add to 10.0.0.0/24 nhid 3`; with table 100, metric 10 and
source 192.168.1.1 it is `ip route add to 10.0.0.0/24 nhid 3 table 100 metric
10 src 192.168.1.1`. -/
theorem C3_RouteAddNextHop_command {σ : Type} (p : Platform σ) (network : String)
    (nhID table metric proto scope : Int) (source : String) (w : World σ) :
    (∃ w1 del add,
      del = ["ip", "route", "delete", "to", network]
          ++ (if 0 ≤ table then ["table", Itoa table] else [])
      ∧ add = ["ip", "route", "add", "to", network, "nhid", Itoa nhID]
          ++ (if 0 ≤ table then ["table", Itoa table] else [])
          ++ (if 0 ≤ metric then ["metric", Itoa metric] else [])
          ++ (if 0 ≤ proto then ["proto", Itoa proto] else [])
          ++ (if 0 ≤ scope then ["scope", Itoa scope] else [])
          ++ (if source ≠ "" then ["src", source] else [])
      ∧ RouteAddNextHop p network nhID table metric proto scope source w
          = some (p.errorOf (p.exec w.os del).2 add, w1)
      ∧ w1.os = (p.exec (p.exec w.os del).2 add).2
      ∧ w1.launched = w.launched ++ [del, add])
    ∧ (∃ w1 del add,
      del = ["ip", "route", "delete", "to", "10.0.0.0/24"]
      ∧ add = ["ip", "route", "add", "to", "10.0.0.0/24", "nhid", "3"]
      ∧ RouteAddNextHop p "10.0.0.0/24" 3 (-1) (-1) (-1) (-1) "" w
          = some (p.errorOf (p.exec w.os del).2 add, w1)
      ∧ w1.os = (p.exec (p.exec w.os del).2 add).2
      ∧ w1.launched = w.launched ++ [del, add])
    ∧ (∃ w1 del add,
      del = ["ip", "route", "delete", "to", "10.0.0.0/24", "table", "100"]
      ∧ add = ["ip", "route", "add", "to", "10.0.0.0/24", "nhid", "3", "table", "100",
          "metric", "10", "src", "192.168.1.1"]
      ∧ RouteAddNextHop p "10.0.0.0/24" 3 100 10 (-1) (-1) "192.168.1.1" w
          = some (p.errorOf (p.exec w.os del).2 add, w1)
      ∧ w1.os = (p.exec (p.exec w.os del).2 add).2
      ∧ w1.launched = w.launched ++ [del, add]) := by
  refine ⟨?_, ?_, ?_⟩
  · obtain ⟨w1, h, hos, hl⟩ :=
      RouteAddNextHop_run p network nhID table metric proto scope source w
    exact ⟨w1, _, _, rfl, rfl, h, hos, hl⟩
  · obtain ⟨w1, h, hos, hl⟩ := RouteAddNextHop_run p "10.0.0.0/24" 3 (-1) (-1) (-1) (-1) "" w
    exact ⟨w1, _, _, rfl, rfl, h, hos, hl⟩
  · obtain ⟨w1, h, hos, hl⟩ :=
      RouteAddNextHop_run p "10.0.0.0/24" 3 100 10 (-1) (-1) "192.168.1.1" w
    exact ⟨w1, _, _, rfl, rfl, h, hos, hl⟩

/-- C3 fails as stated: table -2 differs from the sentinel -1, so the sentinel
rule gives the add command `ip route add to 10.0.0.0/24 nhid 3 table -2`, but
RouteAddNextHop("10.0.0.0/24", 3, -2, -1, -1, -1, "") runs `ip route delete
to 10.0.0.0/24` and then `ip route add to 10.0.0.0/24 nhid 3`, without a
table clause. -/
theorem C3_negative_table_omitted :
    (-2 : Int) ≠ -1
    ∧ sentinelAddCommand "10.0.0.0/24" 3 (-2) (-1) (-1) (-1) ""
        = ["ip", "route", "add", "to", "10.0.0.0/24", "nhid", "3", "table", "-2"]
    ∧ (RouteAddNextHop failingPlatform "10.0.0.0/24" 3 (-2) (-1) (-1) (-1) ""
          ⟨(), [], []⟩).map (fun out => out.2.launched)
        = some [["ip", "route", "delete", "to", "10.0.0.0/24"],
            ["ip", "route", "add", "to", "10.0.0.0/24", "nhid", "3"]]
    ∧ (RouteAddNextHop failingPlatform "10.0.0.0/24" 3 (-2) (-1) (-1) (-1) ""
          ⟨(), [], []⟩).map (fun out => out.2.launched)
        ≠ some [["ip", "route", "delete", "to", "10.0.0.0/24"],
            sentinelAddCommand "10.0.0.0/24" 3 (-2) (-1) (-1) (-1) ""] := by
  have hrun : (RouteAddNextHop failingPlatform "10.0.0.0/24" 3 (-2) (-1) (-1) (-1) ""
        ⟨(), [], []⟩).map (fun out => out.2.launched)
      = some [["ip", "route", "delete", "to", "10.0.0.0/24"],
          ["ip", "route", "add", "to", "10.0.0.0/24", "nhid", "3"]] := rfl
  refine ⟨by decide, by decide, hrun, ?_⟩
  rw [hrun]
  decide

/-- C9: in RouteDelete and RouteAddNextHop an integer clause (table, metric,
proto, scope) is in the command exactly when its value is ≥ 0.  Table -2 gives
the command of table -1, and table 0 gives the clause `table 0`. -/
theorem C9_negative_values_omit {σ : Type} (p : Platform σ) (network : String)
    (nhID table metric proto scope : Int) (source : String) (w : World σ) :
    (∃ r w1, RouteDelete p network table w = some (r, w1)
      ∧ w1.launched = w.launched ++ [["ip", "route", "delete", "to", network]
          ++ (if 0 ≤ table then ["table", Itoa table] else [])])
    ∧ (∃ r w1 del, RouteAddNextHop p network nhID table metric proto scope source w = some (r, w1)
      ∧ w1.launched = w.launched ++ [del,
          ["ip", "route", "add", "to", network, "nhid", Itoa nhID]
            ++ (if 0 ≤ table then ["table", Itoa table] else [])
            ++ (if 0 ≤ metric then ["metric", Itoa metric] else [])
            ++ (if 0 ≤ proto then ["proto", Itoa proto] else [])
            ++ (if 0 ≤ scope then ["scope", Itoa scope] else [])
            ++ (if source ≠ "" then ["src", source] else [])])
    ∧ (∃ r w1 r2 w2, RouteDelete p network (-2) w = some (r, w1)
      ∧ RouteDelete p network (-1) w = some (r2, w2)
      ∧ w1.launched = w.launched ++ [["ip", "route", "delete", "to", network]]
      ∧ w2.launched = w1.launched)
    ∧ (∃ r w1, RouteDelete p network 0 w = some (r, w1)
      ∧ w1.launched = w.launched ++ [["ip", "route", "delete", "to", network, "table", "0"]])
    ∧ (∃ r w1 r2 w2, RouteAddNextHop p network nhID (-2) metric proto scope source w = some (r, w1)
      ∧ RouteAddNextHop p network nhID (-1) metric proto scope source w = some (r2, w2)
      ∧ w2.launched = w1.launched)
    ∧ (∃ r w1, RouteAddNextHop p network nhID 0 (-1) (-1) (-1) "" w = some (r, w1)
      ∧ w1.launched = w.launched ++ [["ip", "route", "delete", "to", network, "table", "0"],
          ["ip", "route", "add", "to", network, "nhid", Itoa nhID, "table", "0"]]) := by
  refine ⟨?_, ?_, ?_, ?_, ?_, ?_⟩
  · obtain ⟨w1, h, _, hl⟩ := RouteDelete_run p network table w
    exact ⟨_, w1, h, hl⟩
  · obtain ⟨w1, h, _, hl⟩ := RouteAddNextHop_run p network nhID table metric proto scope source w
    exact ⟨_, w1, _, h, hl⟩
  · obtain ⟨w1, h, _, hl⟩ := RouteDelete_run p network (-2) w
    obtain ⟨w2, h2, _, hl2⟩ := RouteDelete_run p network (-1) w
    exact ⟨_, w1, _, w2, h, h2, hl, by rw [hl2, hl]; rfl⟩
  · obtain ⟨w1, h, _, hl⟩ := RouteDelete_run p network 0 w
    exact ⟨_, w1, h, hl⟩
  · obtain ⟨w1, h, _, hl⟩ := RouteAddNextHop_run p network nhID (-2) metric proto scope source w
    obtain ⟨w2, h2, _, hl2⟩ := RouteAddNextHop_run p network nhID (-1) metric proto scope source w
    exact ⟨_, w1, _, w2, h, h2, by rw [hl2, hl]; rfl⟩
  · obtain ⟨w1, h, _, hl⟩ := RouteAddNextHop_run p network nhID 0 (-1) (-1) (-1) "" w
    exact ⟨_, w1, h, hl⟩

theorem intercalate_edges (sep : Char) (parts : List (List Char))
    (h : ∀ l ∈ parts, l ≠ [] ∧ sep ∉ l) :
    ([sep].intercalate parts).head? ≠ some sep ∧ ([sep].intercalate parts).getLast? ≠ some sep := by
  induction parts with
  | nil => simp [List.intercalate]
  | cons x xs ih =>
    obtain ⟨hx, hsx⟩ := h x (by simp)
    cases xs with
    | nil =>
      rw [list_intercalate_cons]
      simp only [List.map_nil, List.flatten_nil, List.append_nil]
      constructor
      · intro hh; exact hsx (List.mem_of_mem_head? hh)
      · intro hh; exact hsx (List.mem_of_getLast?_eq_some hh)
    | cons y ys =>
      have ih2 := ih (fun l hl => h l (by simp [hl]))
      have hy := (h y (by simp)).1
      have hrec : [sep].intercalate (x :: y :: ys) = (x ++ [sep]) ++ [sep].intercalate (y :: ys) := by
        simp [List.intercalate]
      have hne : [sep].intercalate (y :: ys) ≠ [] := by
        rw [list_intercalate_cons]; simp [hy]
      rw [hrec]
      constructor
      · rw [List.append_assoc, List.head?_append_of_ne_nil _ hx]
        intro hh; exact hsx (List.mem_of_mem_head? hh)
      · rw [List.getLast?_append_of_ne_nil _ hne]
        exact ih2.2

/-- The group token neither starts nor ends with the separator. -/
theorem nextHopList_edges (nextHops : List Int) :
    (nextHopListLoop 0 "" nextHops).data.head? ≠ some '/'
    ∧ (nextHopListLoop 0 "" nextHops).data.getLast? ≠ some '/' := by
  rw [nextHopListLoop_eq_Join, Join_data]
  have hsep : ("/" : String).data = ['/'] := rfl
  rw [hsep]
  apply intercalate_edges
  intro l hl
  simp only [List.mem_map] at hl
  obtain ⟨a, ⟨m, _, rfl⟩, rfl⟩ := hl
  exact Itoa_chars m

/-- C5: CreateNextHopGroup(g, members) returns after running exactly one
command: ip nexthop add id decimal(g) group L, where L is the decimal
renderings of the members, in their order, joined by `/`; L neither starts
nor ends with `/`; for the members 5, 7, 9 it is `5/7/9`.  Running means: the
executor is called on that argument vector in the current state of the
operating system, its next state is the state afterwards, the error returned
is the one of that run, and nothing else is executed. -/
theorem C5_CreateNextHopGroup_command {σ : Type} (p : Platform σ) (g : Int)
    (members : List Int) (w : World σ) :
    (∃ w1 cmd, cmd = ["ip", "nexthop", "add", "id", Itoa g, "group", Join (members.map Itoa) "/"]
      ∧ CreateNextHopGroup p g members w = some (p.errorOf w.os cmd, w1)
      ∧ w1.os = (p.exec w.os cmd).2
      ∧ w1.launched = w.launched ++ [cmd]
      ∧ PropagatesRun p cmd w (CreateNextHopGroup p g members w))
    ∧ (Join (members.map Itoa) "/").data.head? ≠ some '/'
    ∧ (Join (members.map Itoa) "/").data.getLast? ≠ some '/'
    ∧ (∃ w1 cmd, cmd = ["ip", "nexthop", "add", "id", Itoa g, "group", "5/7/9"]
      ∧ CreateNextHopGroup p g [5, 7, 9] w = some (p.errorOf w.os cmd, w1)
      ∧ w1.os = (p.exec w.os cmd).2
      ∧ w1.launched = w.launched ++ [cmd]) := by
  obtain ⟨h1, h2⟩ := nextHopList_edges members
  rw [nextHopListLoop_eq_Join] at h1 h2
  refine ⟨?_, h1, h2, ?_⟩
  · obtain ⟨w1, h, hos, hl⟩ := CreateNextHopGroup_run p g members w
    rw [nextHopListLoop_eq_Join] at h hos hl
    exact ⟨w1, _, rfl, h, hos, hl, propagatesRun_of_run p _ w w1 _ (by simp) h hos hl⟩
  · obtain ⟨w1, h, hos, hl⟩ := CreateNextHopGroup_run p g [5, 7, 9] w
    exact ⟨w1, _, rfl, h, hos, hl⟩

/-- C10: for non-empty member lists the group token that CreateNextHopGroup
hands to the executor loses nothing: split at `/` and read as decimal
integers, it gives the members back in their order, so two different
non-empty member lists give different tokens.  For the empty list the token is
the empty string, and it is still the last argument of the command. -/
theorem C10_group_token_roundtrip {σ : Type} (p : Platform σ) (g : Int)
    (members others : List Int) (w : World σ) (hm : members ≠ []) (ho : others ≠ []) :
    (∃ r w1 token, CreateNextHopGroup p g members w = some (r, w1)
      ∧ w1.launched = w.launched ++ [["ip", "nexthop", "add", "id", Itoa g, "group", token]]
      ∧ token = nextHopListLoop 0 "" members
      ∧ (splitSlash token).map parseInt = members.map some)
    ∧ (nextHopListLoop 0 "" members = nextHopListLoop 0 "" others → members = others)
    ∧ nextHopListLoop 0 "" [] = ""
    ∧ (∃ r w1, CreateNextHopGroup p g [] w = some (r, w1)
      ∧ w1.launched = w.launched ++ [["ip", "nexthop", "add", "id", Itoa g, "group", ""]]) := by
  refine ⟨?_, ?_, rfl, ?_⟩
  · obtain ⟨w1, h, _, hl⟩ := CreateNextHopGroup_run p g members w
    exact ⟨_, w1, _, h, hl, rfl, parse_nextHopList members hm⟩
  · intro heq
    have h1 := parse_nextHopList members hm
    rw [heq, parse_nextHopList others ho] at h1
    exact ((List.map_injective_iff.mpr (Option.some_injective Int)) h1).symm
  · obtain ⟨w1, h, _, hl⟩ := CreateNextHopGroup_run p g [] w
    exact ⟨_, w1, h, hl⟩

theorem C10_group_token_roundtrip_witness :
    [5, -7, 9] ≠ ([] : List Int) ∧ [5, 79] ≠ ([] : List Int)
    ∧ ((∃ r w1 token, CreateNextHopGroup failingPlatform 4 [5, -7, 9] ⟨(), [], []⟩ = some (r, w1)
        ∧ w1.launched = [] ++ [["ip", "nexthop", "add", "id", Itoa 4, "group", token]]
        ∧ token = nextHopListLoop 0 "" [5, -7, 9]
        ∧ (splitSlash token).map parseInt = [5, -7, 9].map some)
      ∧ (nextHopListLoop 0 "" [5, -7, 9] = nextHopListLoop 0 "" [5, 79] → [5, -7, 9] = [5, 79])
      ∧ nextHopListLoop 0 "" [] = ""
      ∧ (∃ r w1, CreateNextHopGroup failingPlatform 4 [] ⟨(), [], []⟩ = some (r, w1)
        ∧ w1.launched = [] ++ [["ip", "nexthop", "add", "id", Itoa 4, "group", ""]])) :=
  ⟨by decide, by decide,
    C10_group_token_roundtrip failingPlatform 4 [5, -7, 9] [5, 79] ⟨(), [], []⟩
      (by decide) (by decide)⟩

/-- C8: each of CreateNextHop, CreateNextHopGroup, RouteDelete and
RouteAddNextHop returns the error that RunCommand returns for its own (final)
command, unchanged: nil exactly when that execution succeeds; and the command
is handed to the executor once. -/
theorem C8_errors_propagate {σ : Type} (p : Platform σ) (nhid : Int) (addr dev : String)
    (nextHops : List Int) (network : String) (nhID table metric proto scope : Int)
    (source : String) (w : World σ) :
    PropagatesRun p ["ip", "nexthop", "add", "id", Itoa nhid, "via", addr, "dev", dev] w
      (CreateNextHop p nhid addr dev w)
    ∧ PropagatesRun p ["ip", "nexthop", "add", "id", Itoa nhid, "group",
        nextHopListLoop 0 "" nextHops] w
      (CreateNextHopGroup p nhid nextHops w)
    ∧ PropagatesRun p (deleteCommand network table)
        (w.info ("RouteDelete: " ++ fmtSlice (deleteCommand network table)))
      (RouteDelete p network table w)
    ∧ (∃ rDel wDel, RouteDelete p network table w = some (rDel, wDel)
      ∧ PropagatesRun p (addCommand network nhID table metric proto scope source)
          (wDel.info ("RouteAddNextHop: "
            ++ fmtSlice (addCommand network nhID table metric proto scope source)))
          (RouteAddNextHop p network nhID table metric proto scope source w)) := by
  refine ⟨?_, ?_, ?_, ?_⟩
  · obtain ⟨w1, h, hos, hl⟩ := CreateNextHop_run p nhid addr dev w
    exact propagatesRun_of_run p _ w w1 _ (by simp) h hos hl
  · obtain ⟨w1, h, hos, hl⟩ := CreateNextHopGroup_run p nhid nextHops w
    exact propagatesRun_of_run p _ w w1 _ (by simp) h hos hl
  · obtain ⟨w1, h, hos, hl⟩ := RouteDelete_run p network table w
    exact propagatesRun_of_run p _ _ w1 _ (by simp [deleteCommand]) h hos hl
  · obtain ⟨wd, hdel, hdos, hdl⟩ := RouteDelete_run p network table w
    obtain ⟨w1, h, hos, hl⟩ := RouteAddNextHop_run p network nhID table metric proto scope source w
    have hwos : (wd.info ("RouteAddNextHop: "
        ++ fmtSlice (addCommand network nhID table metric proto scope source))).os
        = (p.exec w.os (deleteCommand network table)).2 := hdos
    have hwl : (wd.info ("RouteAddNextHop: "
        ++ fmtSlice (addCommand network nhID table metric proto scope source))).launched
        = w.launched ++ [deleteCommand network table] := hdl
    have hres : RouteAddNextHop p network nhID table metric proto scope source w
        = some (p.errorOf (wd.info ("RouteAddNextHop: "
            ++ fmtSlice (addCommand network nhID table metric proto scope source))).os
          (addCommand network nhID table metric proto scope source), w1) := by
      rw [hwos]; exact h
    have hos2 : w1.os = (p.exec (wd.info ("RouteAddNextHop: "
        ++ fmtSlice (addCommand network nhID table metric proto scope source))).os
        (addCommand network nhID table metric proto scope source)).2 := by
      rw [hwos]; exact hos
    have hl2 : w1.launched = (wd.info ("RouteAddNextHop: "
        ++ fmtSlice (addCommand network nhID table metric proto scope source))).launched
        ++ [addCommand network nhID table metric proto scope source] := by
      rw [hwl, hl]; simp
    exact ⟨_, wd, hdel, propagatesRun_of_run p
      (addCommand network nhID table metric proto scope source)
      (wd.info ("RouteAddNextHop: "
        ++ fmtSlice (addCommand network nhID table metric proto scope source))) w1
      (RouteAddNextHop p network nhID table metric proto scope source w)
      (by simp [addCommand]) hres hos2 hl2⟩

end Netlink
